import Mathlib

/-!
# Verification of the annotation-backend core (src/main.py)

Shallow embedding of the annotation service's core logic:
per-user flat-file stores (`load_json` missing-file = `{}` is modelled by
total maps with `Option`/`getD []` defaults), the annotation
reconciliation algorithm of `save_annot`, deletion, registration, and the
per-user path derivation `get_user_paths` built on `os.path.join`.

Python `int` is modelled by `Int`, `str` by `String` (paths by `List Char`
to mirror `os.path.join` character-level behaviour), Python `dict` by
total functions into `Option`, and the stable `list.sort(key=...)` by
Mathlib's stable insertion sort `List.insertionSort`.
-/

/-- One stored span, mirroring the dict
`{"start": .., "end": .., "text": .., "label": .., "rank": ..}` built in
`save_annot` (src/main.py lines 260-266).  `rank` is `Optional[str]`. -/
structure Ann where
  start : Int
  «end» : Int
  text : String
  label : String
  rank : Option String
deriving DecidableEq, Repr

/-- The nested helper of `save_annot` (line 255-256):
`def overlaps(a_start, a_end, b_start, b_end): return a_start < b_end and b_start < a_end`. -/
def overlaps (a_start a_end b_start b_end : Int) : Bool :=
  decide (a_start < b_end) && decide (b_start < a_end)

/-- The sort key order of `filtered.sort(key=lambda x: x["start"])` (line 268). -/
def annLE (a b : Ann) : Prop := a.start ≤ b.start

instance : DecidableRel annLE := fun a b => inferInstanceAs (Decidable (a.start ≤ b.start))

instance : IsTotal Ann annLE := ⟨fun a b => Int.le_total a.start b.start⟩

instance : IsTrans Ann annLE := ⟨fun _ _ _ h h' => le_trans h h'⟩

/-- Python's `list.sort(key=lambda x: x["start"])` is a stable sort; any stable
sort by a key is extensionally the stable insertion sort that inserts an
element before the first strictly larger-keyed one and after equal keys. -/
def pySortByStart (l : List Ann) : List Ann := l.insertionSort annLE

/-- Pointwise update of a dict modelled as a total function. -/
def updateMap {κ β : Type} [DecidableEq κ] (m : κ → β) (k : κ) (v : β) : κ → β :=
  fun k' => if k' = k then v else m k'

/-- One `annotations.json` file: dict doc_id → list of spans. -/
def AnnMap : Type := String → Option (List Ann)

/-- The body of `save_annot` acting on one document's current list
(lines 258-268): drop every stored span overlapping the candidate, append
the candidate, sort by `start`. -/
def reconcile (current : List Ann) (c : Ann) : List Ann :=
  let filtered := current.filter (fun a => !(overlaps a.start a.«end» c.start c.«end»))
  pySortByStart (filtered ++ [c])

/-- Endpoint `save_annot` (lines 240-272) as a transform of the per-user
annotations dict.  `if doc_id not in anns: anns[doc_id] = []` makes the
current list `getD []`; the endpoint always replies `{"status": "saved"}`
(HTTP 200) — there is no error path. -/
def save_annot (anns : AnnMap) (doc_id : String) (c : Ann) : AnnMap :=
  let current := (anns doc_id).getD []
  updateMap anns doc_id (reconcile current c)

/-- Endpoint `delete_annotation` (lines 285-294; Lean cannot use that exact
name) as a transform returning (HTTP status, resulting stored dict): 404 and
the store untouched when
`doc_id not in anns or index < 0 or index >= len(anns[doc_id])`, otherwise
200 and the store with `anns[doc_id].pop(index)` applied. -/
def delete_annot (anns : AnnMap) (doc_id : String) (index : Int) : Nat × AnnMap :=
  match anns doc_id with
  | none => (404, anns)
  | some l =>
      if index < 0 ∨ (l.length : Int) ≤ index then (404, anns)
      else (200, updateMap anns doc_id (l.eraseIdx index.toNat))

/-- The empty annotations store (`load_json` of a missing file is `{}`). -/
def emptyAnns : AnnMap := fun _ => none

/-- The spec's overlap-exclusion property for one stored list: no pair
satisfies `a.start < b.end AND b.start < a.end`. -/
def NoOverlap (l : List Ann) : Prop :=
  l.Pairwise (fun a b => ¬(a.start < b.«end» ∧ b.start < a.«end»))

/-- A whole history of `save_annot` calls starting from the empty store
(`load_json` of a missing file). -/
def applySaves (ops : List (String × Ann)) : AnnMap :=
  ops.foldl (fun m op => save_annot m op.1 op.2) emptyAnns

/-- The two write operations on one user's annotations file. -/
inductive DocOp where
  | save : String → Ann → DocOp
  | del : String → Int → DocOp

def applyDocOp (m : AnnMap) : DocOp → AnnMap
  | .save d c => save_annot m d c
  | .del d i => (delete_annot m d i).2

def applyDocOps (ops : List DocOp) : AnnMap :=
  ops.foldl applyDocOp emptyAnns

/-- Python `str.strip()` whitespace (the ASCII part of `str.isspace()`). -/
def pyWhitespace (c : Char) : Bool :=
  c = ' ' || c = '\t' || c = '\n' || c = '\r' || c = '\x0b' || c = '\x0c'

/-- Python's `payload.username.strip()`. -/
def pyStrip (s : String) : String :=
  ⟨((s.toList.dropWhile pyWhitespace).reverse.dropWhile pyWhitespace).reverse⟩

/-- A stored credential record: `{"salt": .., "password": hash(salt+password)}`. -/
structure UserRec where
  salt : String
  password : String
deriving DecidableEq, Repr

/-- Store `users.json`: dict username → credential record. -/
def UsersMap : Type := String → Option UserRec

/-- Endpoint `register_user` (src/main.py lines 92-109), with the
`uuid4().hex` salt drawn from the random source as the `salt` argument and
the SHA-256 digest `hash_password(password, salt) = sha256(salt + password)`
kept abstract as the `hash` argument.  Returns (HTTP status, resulting users
store): the username is stripped, `if not username or not password` and
duplicate usernames both reply status 400 without writing; otherwise the
record is persisted and the reply is 200. -/
def register_user (hash : String → String → String) (salt : String)
    (users : UsersMap) (username password : String) : Nat × UsersMap :=
  let username := pyStrip username
  if username = "" ∨ password = "" then (400, users)
  else if (users username).isSome then (400, users)
  else (200, updateMap users username (some ⟨salt, hash salt password⟩))

/-- A concrete stand-in digest used only to evaluate `register_user` at
concrete inputs (no claim depends on the digest's value). -/
def hash0 : String → String → String := fun s p => s ++ p

/-- POSIX `os.path.join(a, b)` at character level: an absolute `b` wins;
otherwise `b` is appended, with a separator inserted unless `a` is empty or
already ends in one. -/
def pyJoinL (a b : List Char) : List Char :=
  if b.head? = some '/' then b
  else if a = [] ∨ a.getLast? = some '/' then a ++ b
  else a ++ '/' :: b

/-- The three per-user store paths built by `get_user_paths`
(src/main.py lines 61-68); the `os.makedirs` side effect has no bearing on
the mapping and is dropped. -/
structure UserPaths where
  docs : List Char
  anns : List Char
  labels : List Char
deriving DecidableEq, Repr

/-- Function `get_user_paths(username)`:
`base = os.path.join(DATA_DIR, username)` with `DATA_DIR = "data"`, then one
`os.path.join(base, file)` per store. -/
def get_user_paths (username : String) : UserPaths :=
  let base := pyJoinL "data".toList username.toList
  { docs := pyJoinL base "documents.json".toList
    anns := pyJoinL base "annotations.json".toList
    labels := pyJoinL base "labels.json".toList }

/-- One stored document: `{"doc_id", "filename", "text", "preview"}`. -/
structure DocRec where
  doc_id : String
  filename : String
  text : String
  preview : String
deriving DecidableEq, Repr

/-- Store `documents.json`: dict doc_id → document record. -/
def DocMap : Type := String → Option DocRec

/-- Store `labels.json`: dict label name → color. -/
def LabelMap : Type := String → Option String

/-- Helper `make_preview` (lines 52-55): newlines to spaces, whitespace runs
collapsed via `" ".join(text.split())`, truncation to `n` characters with an
ellipsis marker when the collapsed text is longer than `n`. -/
def make_preview (text : String) (n : Nat) : String :=
  let t := text.replace "\n" " "
  let t := String.intercalate " " ((t.split (fun c => pyWhitespace c)).filter (fun s => s ≠ ""))
  t.take n ++ (if n < t.length then "..." else "")

/-- The durable state: each store file, addressed by its path, read as a
mapping (`load_json` of a missing path is the empty dict, hence total
functions with `none` defaults). -/
structure World where
  docsFS : List Char → DocMap
  annsFS : List Char → AnnMap
  labelsFS : List Char → LabelMap

/-- Fresh data directory: every load yields `{}`. -/
def emptyWorld : World :=
  { docsFS := fun _ _ => none, annsFS := fun _ _ => none, labelsFS := fun _ _ => none }

/-- The authenticated mutating endpoints, as invoked by one principal. -/
inductive Op where
  | upload : String → String → Op
  | saveAnn : String → Ann → Op
  | delAnn : String → Int → Op
  | setLabel : String → String → Op
  | delLabel : String → Op

/-- One endpoint call by authenticated user `u` against the stores:
`upload` (lines 134-154), `save_annot` (240-272), the annotation delete
(285-294), `save_label` (300-310) and `delete_label` (313-322).  Every
handler derives `paths = get_user_paths(user)` and reads/writes only the
addressed file. -/
def applyOp (u : String) (w : World) : Op → World
  | .upload filename content =>
      let paths := get_user_paths u
      { w with docsFS := (updateMap w.docsFS paths.docs
          (updateMap (w.docsFS paths.docs) filename
            (some ⟨filename, filename, content, make_preview content 120⟩))) }
  | .saveAnn doc_id c =>
      let paths := get_user_paths u
      { w with annsFS := (updateMap w.annsFS paths.anns
          (save_annot (w.annsFS paths.anns) doc_id c)) }
  | .delAnn doc_id i =>
      let paths := get_user_paths u
      { w with annsFS := (updateMap w.annsFS paths.anns
          ((delete_annot (w.annsFS paths.anns) doc_id i).2)) }
  | .setLabel name color =>
      let paths := get_user_paths u
      { w with labelsFS := (updateMap w.labelsFS paths.labels
          (updateMap (w.labelsFS paths.labels) name (some color))) }
  | .delLabel name =>
      let paths := get_user_paths u
      let labels := w.labelsFS paths.labels
      if labels name = none then w
      else { w with labelsFS := (updateMap w.labelsFS paths.labels
          (updateMap labels name none)) }

/-- Endpoint `GET /document/:doc_id` as user `u`: the text, or `none` for 404. -/
def get_doc (u doc_id : String) (w : World) : Option String :=
  (w.docsFS (get_user_paths u).docs doc_id).map DocRec.text

/-- Endpoint `GET /annotations/:doc_id` as user `u`: `data.get(doc_id, [])`. -/
def get_annots (u doc_id : String) (w : World) : List Ann :=
  ((w.annsFS (get_user_paths u).anns) doc_id).getD []

/-- Endpoint `GET /labels` as user `u`. -/
def get_labels (u : String) (w : World) : LabelMap :=
  w.labelsFS (get_user_paths u).labels

/-- Two inserts at strictly distinct keys commute. -/
theorem orderedInsert_comm (a b : Ann) (X : List Ann) (hab : ¬ annLE a b) :
    List.orderedInsert annLE b (List.orderedInsert annLE a X)
      = List.orderedInsert annLE a (List.orderedInsert annLE b X) := by
  induction X with
  | nil =>
      have hba : annLE b a := by simp only [annLE] at *; omega
      simp [List.orderedInsert, hab, hba]
  | cons x xs ih =>
      by_cases hax : annLE a x
      · have hbx : annLE b x := by simp only [annLE] at *; omega
        have hba : annLE b a := by simp only [annLE] at *; omega
        simp only [List.orderedInsert, if_pos hax, if_pos hbx, if_pos hba, if_neg hab]
      · by_cases hbx : annLE b x
        · simp only [List.orderedInsert, if_neg hax, if_pos hbx, if_neg hab]
        · simp only [List.orderedInsert, if_neg hax, if_neg hbx, ih]

/-- Folding inserts over a list with `a` inserted somewhere equals inserting
`a` into the fold. -/
theorem foldr_orderedInsert_orderedInsert (a : Ann) (m : List Ann) :
    ∀ l : List Ann,
      (List.orderedInsert annLE a l).foldr (List.orderedInsert annLE) m
        = List.orderedInsert annLE a (l.foldr (List.orderedInsert annLE) m) := by
  intro l
  induction l with
  | nil => rfl
  | cons b t ih =>
      by_cases hab : annLE a b
      · simp only [List.orderedInsert, if_pos hab, List.foldr]
      · simp only [List.orderedInsert, if_neg hab, List.foldr, ih,
          orderedInsert_comm a b _ hab]

/-- Folding inserts over the sorted version of `f` equals folding over `f`:
pre-sorting does not change where each element lands. -/
theorem foldr_orderedInsert_insertionSort (m : List Ann) :
    ∀ f : List Ann,
      (List.insertionSort annLE f).foldr (List.orderedInsert annLE) m
        = f.foldr (List.orderedInsert annLE) m := by
  intro f
  induction f with
  | nil => rfl
  | cons a t ih =>
      simp only [List.insertionSort, List.foldr,
        foldr_orderedInsert_orderedInsert, ih]

theorem insertionSort_append (xs ys : List Ann) :
    List.insertionSort annLE (xs ++ ys)
      = xs.foldr (List.orderedInsert annLE) (List.insertionSort annLE ys) := by
  induction xs with
  | nil => rfl
  | cons a t ih =>
      simp only [List.cons_append, List.insertionSort, List.foldr, List.append_eq, ih]

/-- Sorting an already-sorted prefix first does not change the result. -/
theorem insertionSort_insertionSort_append (f ys : List Ann) :
    List.insertionSort annLE (List.insertionSort annLE f ++ ys)
      = List.insertionSort annLE (f ++ ys) := by
  rw [insertionSort_append, insertionSort_append, foldr_orderedInsert_insertionSort]

/-- Inserting an element in front of a list it is `≼`-below everything of. -/
theorem orderedInsert_of_forall_le (a : Ann) (l : List Ann)
    (h : ∀ x ∈ l, annLE a x) : List.orderedInsert annLE a l = a :: l := by
  cases l with
  | nil => rfl
  | cons b t => simp only [List.orderedInsert, if_pos (h b (by simp))]

/-- Filtering commutes with inserting a kept element into a sorted list. -/
theorem filter_orderedInsert (p : Ann → Bool) (a : Ann) :
    ∀ l : List Ann, List.Sorted annLE l → p a = true →
      (List.orderedInsert annLE a l).filter p
        = List.orderedInsert annLE a (l.filter p) := by
  intro l
  induction l with
  | nil => intro _ hpa; simp [List.orderedInsert, List.filter, hpa]
  | cons b t ih =>
      intro hs hpa
      rw [List.sorted_cons] at hs
      by_cases hab : annLE a b
      · have hall : ∀ x ∈ b :: t, annLE a x := by
          intro x hx
          rcases List.mem_cons.mp hx with h | h
          · exact h ▸ hab
          · exact Trans.trans hab (hs.1 x h)
        rw [List.orderedInsert, if_pos hab, List.filter_cons, hpa,
          orderedInsert_of_forall_le a ((b :: t).filter p)
            (fun x hx => hall x (List.mem_filter.mp hx).1)]
        simp
      · rw [List.orderedInsert, if_neg hab, List.filter_cons, List.filter_cons]
        cases hpb : p b with
        | true =>
            simp only [ih hs.2 hpa, List.orderedInsert, if_neg hab]
            simp
        | false =>
            simp only [ih hs.2 hpa]
            simp

/-- Filtering drops an inserted element that fails the predicate. -/
theorem filter_orderedInsert_neg (p : Ann → Bool) (a : Ann) (hpa : p a = false) :
    ∀ l : List Ann, (List.orderedInsert annLE a l).filter p = l.filter p := by
  intro l
  induction l with
  | nil => simp [List.orderedInsert, List.filter, hpa]
  | cons b t ih =>
      by_cases hab : annLE a b
      · rw [List.orderedInsert, if_pos hab, List.filter_cons, hpa, List.filter_cons]
        simp
      · rw [List.orderedInsert, if_neg hab, List.filter_cons, List.filter_cons, ih]

/-- Filtering commutes with the stable sort. -/
theorem filter_insertionSort (p : Ann → Bool) :
    ∀ f : List Ann,
      (List.insertionSort annLE f).filter p = List.insertionSort annLE (f.filter p) := by
  intro f
  induction f with
  | nil => rfl
  | cons a t ih =>
      cases hpa : p a with
      | true =>
          rw [List.insertionSort,
            filter_orderedInsert p a _ (List.sorted_insertionSort annLE t) hpa, ih,
            List.filter_cons, hpa]
          simp [List.insertionSort]
      | false =>
          rw [List.insertionSort, filter_orderedInsert_neg p a hpa, ih,
            List.filter_cons, hpa]
          simp

theorem noOverlap_symm :
    ∀ {a b : Ann}, ¬(a.start < b.«end» ∧ b.start < a.«end») →
      ¬(b.start < a.«end» ∧ a.start < b.«end») := by
  intro a b h hc; exact h ⟨hc.2, hc.1⟩

/-- The reconciliation step always produces an overlap-free list out of an
overlap-free one: survivors were pairwise clean and none of them overlaps
the freshly appended candidate. -/
theorem noOverlap_reconcile (l : List Ann) (c : Ann) (h : NoOverlap l) :
    NoOverlap (reconcile l c) := by
  unfold NoOverlap reconcile pySortByStart
  rw [(List.perm_insertionSort annLE _).pairwise_iff (fun h => noOverlap_symm h)]
  rw [List.pairwise_append]
  refine ⟨h.filter _, List.pairwise_singleton _ _, ?_⟩
  intro a ha b hb
  rcases List.mem_filter.mp ha with ⟨-, hpa⟩
  rcases List.mem_singleton.mp hb with rfl
  simp only [overlaps, Bool.not_eq_eq_eq_not, Bool.not_true, Bool.and_eq_false_imp,
    decide_eq_true_eq, decide_eq_false_iff_not] at hpa
  intro hc
  exact absurd hc.2 (by simpa using hpa hc.1)

theorem noOverlap_foldl_saves (ops : List (String × Ann)) :
    ∀ m : AnnMap, (∀ d, NoOverlap ((m d).getD [])) →
      ∀ d, NoOverlap (((ops.foldl (fun m op => save_annot m op.1 op.2) m) d).getD []) := by
  induction ops with
  | nil => intro m hm d; exact hm d
  | cons op rest ih =>
      intro m hm d
      refine ih _ ?_ d
      intro d'
      unfold save_annot updateMap
      by_cases hd : d' = op.1
      · simpa [hd] using noOverlap_reconcile _ op.2 (hm op.1)
      · simpa [hd] using hm d'

/-- C1: for every document, after any sequence of `save_annot` calls starting
from the empty store, no two stored spans satisfy
`a.start < b.end AND b.start < a.end`; the save path establishes and
preserves this (helper `noOverlap_reconcile` is the preservation step). -/
theorem c1_overlap_exclusion (ops : List (String × Ann)) (d : String) :
    NoOverlap ((applySaves ops d).getD []) := by
  refine noOverlap_foldl_saves ops emptyAnns ?_ d
  intro d'; simp [emptyAnns, NoOverlap]

/-- C2 counterexample: the code performs no `start < end` validation.  Saving
the degenerate candidate `[5,3)` on a fresh store silently persists it:
the stored list becomes exactly that candidate instead of being rejected. -/
theorem c2_counterexample :
    save_annot emptyAnns "d" ⟨5, 3, "t", "L", none⟩ "d"
      = some [⟨5, 3, "t", "L", none⟩] := by decide

/-- C2 (amended): `save_annot` validates nothing; every candidate — including
one with `start ≥ end` — is accepted and persisted into the stored list. -/
theorem c2_no_validation (m : AnnMap) (d : String) (c : Ann) :
    c ∈ (save_annot m d c d).getD [] := by
  unfold save_annot updateMap
  simp only [if_pos rfl, Option.getD_some]
  unfold reconcile pySortByStart
  exact ((List.perm_insertionSort annLE _).mem_iff).mpr (by simp)

/-- C5: on a store holding exactly `[0,10)` labelled "A" for document "d",
saving `[3,7)` labelled "B" leaves exactly one stored span, `[3,7)` "B" —
the old span is removed whole, not split. -/
theorem c5_overwrite_semantics :
    save_annot (save_annot emptyAnns "d" ⟨0, 10, "ta", "A", none⟩) "d" ⟨3, 7, "tb", "B", none⟩ "d"
      = some [⟨3, 7, "tb", "B", none⟩] := by decide

/-- C6: spans touching at an endpoint do not conflict — saving `[0,5)` then
`[5,10)` keeps both, because the overlap test uses strict inequalities. -/
theorem c6_touching_spans :
    save_annot (save_annot emptyAnns "d" ⟨0, 5, "ta", "A", none⟩) "d" ⟨5, 10, "tb", "B", none⟩ "d"
      = some [⟨0, 5, "ta", "A", none⟩, ⟨5, 10, "tb", "B", none⟩] := by decide

theorem filter_not_overlaps_self (c : Ann) (h : c.start < c.«end») :
    (fun a => !(overlaps a.start a.«end» c.start c.«end»)) c = false := by
  simp [overlaps, h]

/-- Re-running the reconciliation with the same valid candidate is a no-op:
the second pass removes exactly the candidate itself and re-inserts it at the
same position. -/
theorem reconcile_idem (l : List Ann) (c : Ann) (h : c.start < c.«end») :
    reconcile (reconcile l c) c = reconcile l c := by
  set p : Ann → Bool := fun a => !(overlaps a.start a.«end» c.start c.«end») with hp
  have hpc : p c = false := filter_not_overlaps_self c h
  show pySortByStart ((pySortByStart (l.filter p ++ [c])).filter p ++ [c])
      = pySortByStart (l.filter p ++ [c])
  unfold pySortByStart
  rw [filter_insertionSort, List.filter_append, List.filter_filter]
  have h1 : List.filter (fun a => p a && p a) l = List.filter p l := by
    simp
  have h2 : List.filter p [c] = [] := by
    simp [List.filter, hpc]
  rw [h1, h2, List.append_nil, insertionSort_insertionSort_append]

/-- The reconciled list holds exactly one copy of a valid candidate. -/
theorem reconcile_count_one (l : List Ann) (c : Ann) (h : c.start < c.«end») :
    (reconcile l c).count c = 1 := by
  set p : Ann → Bool := fun a => !(overlaps a.start a.«end» c.start c.«end») with hp
  have hpc : p c = false := filter_not_overlaps_self c h
  have hperm : List.Perm (reconcile l c) (l.filter p ++ [c]) :=
    List.perm_insertionSort annLE _
  rw [hperm.count_eq, List.count_append]
  have hnot : c ∉ l.filter p := by
    intro hc
    rw [List.mem_filter] at hc
    rw [hc.2] at hpc
    cases hpc
  rw [List.count_eq_zero.mpr hnot]
  simp

/-- C9 counterexample: for a degenerate candidate the claim fails — a
zero-length span does not overlap itself, so saving `[2,2)` twice duplicates
it instead of replacing it. -/
theorem c9_counterexample :
    save_annot (save_annot emptyAnns "d" ⟨2, 2, "t", "L", none⟩) "d" ⟨2, 2, "t", "L", none⟩ "d"
      = some [⟨2, 2, "t", "L", none⟩, ⟨2, 2, "t", "L", none⟩] := by decide

/-- C9 (amended): for a candidate with `start < end`, saving it twice in a
row equals saving it once — the store is unchanged by the second save and
holds exactly one copy of the candidate. -/
theorem c9_idempotent_resave (m : AnnMap) (d : String) (c : Ann)
    (h : c.start < c.«end») :
    save_annot (save_annot m d c) d c = save_annot m d c ∧
      ((save_annot m d c d).getD []).count c = 1 := by
  constructor
  · funext k
    unfold save_annot updateMap
    by_cases hk : k = d
    · simp [hk, reconcile_idem _ c h]
    · simp [hk]
  · unfold save_annot updateMap
    simp [reconcile_count_one _ c h]

/-- C9 witness: a concrete valid candidate saved twice on a store already
holding an overlapping span. -/
theorem c9_idempotent_resave_witness :
    let c : Ann := ⟨3, 7, "tb", "B", none⟩
    let m : AnnMap := updateMap emptyAnns "d" (some [(⟨0, 10, "ta", "A", none⟩ : Ann)])
    save_annot (save_annot m "d" c) "d" c = save_annot m "d" c ∧
      ((save_annot m "d" c "d").getD []).count c = 1 := by
  intro c m
  exact c9_idempotent_resave m "d" c (by decide)

theorem sorted_reconcile (l : List Ann) (c : Ann) :
    List.Sorted annLE (reconcile l c) :=
  List.sorted_insertionSort annLE _

theorem sorted_delete (m : AnnMap) (d : String) (i : Int) (d' : String)
    (h : List.Sorted annLE ((m d').getD [])) :
    List.Sorted annLE (((delete_annot m d i).2 d').getD []) := by
  unfold delete_annot
  cases hmd : m d with
  | none => simpa using h
  | some l =>
      by_cases hb : i < 0 ∨ (l.length : Int) ≤ i
      · simpa [hb] using h
      · simp only [hb, if_neg, not_false_iff]
        unfold updateMap
        by_cases hd : d' = d
        · subst hd
          simp only [if_pos rfl, Option.getD_some]
          exact List.Pairwise.sublist (List.eraseIdx_sublist l i.toNat)
            (by simpa [hmd] using h)
        · simpa [hd] using h

theorem sorted_foldl_docOps (ops : List DocOp) :
    ∀ m : AnnMap, (∀ d, List.Sorted annLE ((m d).getD [])) →
      ∀ d, List.Sorted annLE (((ops.foldl applyDocOp m) d).getD []) := by
  induction ops with
  | nil => intro m hm d; exact hm d
  | cons op rest ih =>
      intro m hm d
      refine ih _ ?_ d
      intro d'
      cases op with
      | save d0 c =>
          unfold applyDocOp save_annot updateMap
          by_cases hd : d' = d0
          · simpa [hd] using sorted_reconcile _ c
          · simpa [hd] using hm d'
      | del d0 i => exact sorted_delete m d0 i d' (hm d')

/-- C7: after any sequence of saves and deletes starting from the empty store,
every document's stored list is non-decreasing in `start`: `save_annot`
re-sorts by ascending `start` before persisting and `delete_annot` preserves
the relative order of the surviving elements. -/
theorem c7_sort_invariant (ops : List DocOp) (d : String) :
    List.Sorted annLE ((applyDocOps ops d).getD []) := by
  refine sorted_foldl_docOps ops emptyAnns ?_ d
  intro d'; simp [emptyAnns]

/-- C3 counterexample: registering an existing username replies status 400,
not 409 as claimed; and a whitespace-only password `" "` is accepted —
a credential record is created for "alice" instead of the call failing. -/
theorem c3_counterexample :
    let users0 : UsersMap := updateMap (fun _ => none) "bob" (some ⟨"s", "h"⟩)
    (register_user hash0 "s1" users0 "bob" "pw").1 = 400 ∧ (400 : Nat) ≠ 409 ∧
      (register_user hash0 "s1" (fun _ => none) "alice" " ").1 = 200 ∧
      ((register_user hash0 "s1" (fun _ => none) "alice" " ").2 "alice").isSome := by
  refine ⟨by decide, by decide, by decide, by decide⟩

/-- C3 (amended): `register_user` fails — always with status 400, never 409 —
exactly when the stripped username is empty, the password is the empty string
(a whitespace-only password is accepted), or the username already exists; on
failure the credential store is returned unchanged, and on success exactly
the new record is added. -/
theorem c3_register_failure (hash : String → String → String) (salt : String)
    (users : UsersMap) (username password : String) :
    ((register_user hash salt users username password).1 = 400 ↔
        pyStrip username = "" ∨ password = "" ∨ (users (pyStrip username)).isSome) ∧
      ((register_user hash salt users username password).1 ≠ 409) ∧
      ((register_user hash salt users username password).1 = 400 →
        (register_user hash salt users username password).2 = users) ∧
      (¬(pyStrip username = "" ∨ password = "" ∨ (users (pyStrip username)).isSome) →
        (register_user hash salt users username password).1 = 200 ∧
          (register_user hash salt users username password).2
            = updateMap users (pyStrip username)
                (some ⟨salt, hash salt password⟩)) := by
  unfold register_user
  by_cases h1 : pyStrip username = "" ∨ password = ""
  · simp [h1]
    tauto
  · by_cases h2 : (users (pyStrip username)).isSome
    · simp [h1, h2]
    · simp [h1, h2]

/-- C3 witness: concrete instantiation of the failure characterisation —
registering "bob" on a store already holding "bob" replies 400 and leaves
the store untouched. -/
theorem c3_register_failure_witness :
    let users0 : UsersMap := updateMap (fun _ => none) "bob" (some ⟨"s", "h"⟩)
    (register_user hash0 "s1" users0 "bob" "pw").1 = 400 ∧
      (register_user hash0 "s1" users0 "bob" "pw").2 = users0 := by
  intro users0
  refine ⟨((c3_register_failure hash0 "s1" users0 "bob" "pw").1).mpr ?_,
    (c3_register_failure hash0 "s1" users0 "bob" "pw").2.2.1 ?_⟩
  · exact Or.inr (Or.inr (by decide))
  · exact ((c3_register_failure hash0 "s1" users0 "bob" "pw").1).mpr
      (Or.inr (Or.inr (by decide)))

/-- C8: `delete_annot` replies 404 exactly when the doc_id is unseen or the
index lies outside `[0, length)` of its current list; on failure the store is
returned unchanged; on success exactly the addressed element is removed
(`take i ++ drop (i+1)`), the order of the rest is preserved, and the result
is persisted under the same doc_id. -/
theorem c8_delete_bounds (m : AnnMap) (d : String) (i : Int) :
    ((delete_annot m d i).1 = 404 ↔
        m d = none ∨ i < 0 ∨ (((m d).getD []).length : Int) ≤ i) ∧
      ((delete_annot m d i).1 = 404 → (delete_annot m d i).2 = m) ∧
      (∀ l, m d = some l → 0 ≤ i → i < (l.length : Int) →
        (delete_annot m d i).1 = 200 ∧
          (delete_annot m d i).2
            = updateMap m d (l.take i.toNat ++ l.drop (i.toNat + 1))) := by
  refine ⟨?_, ?_, ?_⟩
  · unfold delete_annot
    cases hmd : m d with
    | none => simp
    | some l =>
        by_cases hb : i < 0 ∨ (l.length : Int) ≤ i
        · simp [hb]
        · simp only [hb, if_neg, not_false_iff, Option.getD_some]
          simp only [not_or, not_lt, not_le] at hb
          simp [hb.1, not_le.mpr hb.2]
  · unfold delete_annot
    cases hmd : m d with
    | none => simp
    | some l =>
        by_cases hb : i < 0 ∨ (l.length : Int) ≤ i
        · simp [hb]
        · simp [hb]
  · intro l hml h0 hlen
    have hb : ¬(i < 0 ∨ (l.length : Int) ≤ i) := by omega
    simp only [delete_annot, hml, if_neg hb]
    simp [List.eraseIdx_eq_take_drop_succ]

/-- C8 witness: on the store `{"d": [a0, a1, a2]}`, deleting index 1 succeeds
and leaves `[a0, a2]`, while indices `-1` and `3` reply 404 and change
nothing. -/
theorem c8_delete_bounds_witness :
    let a0 : Ann := ⟨0, 1, "t0", "L", none⟩
    let a1 : Ann := ⟨2, 3, "t1", "L", none⟩
    let a2 : Ann := ⟨4, 5, "t2", "L", none⟩
    let m : AnnMap := updateMap emptyAnns "d" [a0, a1, a2]
    (delete_annot m "d" 1).1 = 200 ∧
      (delete_annot m "d" 1).2 = updateMap m "d" [a0, a2] ∧
      (delete_annot m "d" (-1)).2 = m ∧
      (delete_annot m "d" 3).2 = m := by
  intro a0 a1 a2 m
  have h1 := (c8_delete_bounds m "d" 1).2.2 [a0, a1, a2] (by decide) (by decide) (by decide)
  have h2 := (c8_delete_bounds m "d" (-1)).2.1 (by decide)
  have h3 := (c8_delete_bounds m "d" 3).2.1 (by decide)
  exact ⟨h1.1, by simpa using h1.2, h2, h3⟩

theorem pyJoinL_data_slashfree (u : List Char) (hs : '/' ∉ u) :
    pyJoinL "data".toList u = "data".toList ++ '/' :: u := by
  unfold pyJoinL
  have h1 : ¬ u.head? = some '/' := fun h => hs (List.mem_of_mem_head? h)
  rw [if_neg h1, if_neg (by decide)]

theorem pyJoinL_base_file (u sfx : List Char) (hne : u ≠ []) (hs : '/' ∉ u)
    (hhead : ¬ sfx.head? = some '/') :
    pyJoinL ("data".toList ++ '/' :: u) sfx
      = "data".toList ++ '/' :: (u ++ '/' :: sfx) := by
  unfold pyJoinL
  rw [if_neg hhead]
  have hlast : ("data".toList ++ '/' :: u).getLast? = u.getLast? := by
    rw [List.getLast?_append_of_ne_nil _ (by simp)]
    rw [show ('/' :: u) = ['/'] ++ u from rfl, List.getLast?_append_of_ne_nil _ hne]
  have h2 : ¬("data".toList ++ '/' :: u = [] ∨
      ("data".toList ++ '/' :: u).getLast? = some '/') := by
    push_neg
    refine ⟨by simp, ?_⟩
    rw [hlast]
    exact fun h => hs (List.mem_of_mem_getLast? h)
  rw [if_neg h2]
  simp

theorem toList_ne_nil (u : String) (hne : u ≠ "") : u.toList ≠ [] :=
  fun h => hne (String.ext h)

theorem get_user_paths_slashfree (u : String) (hne : u ≠ "") (hs : '/' ∉ u.toList) :
    get_user_paths u =
      { docs := "data".toList ++ '/' :: (u.toList ++ '/' :: "documents.json".toList)
        anns := "data".toList ++ '/' :: (u.toList ++ '/' :: "annotations.json".toList)
        labels := "data".toList ++ '/' :: (u.toList ++ '/' :: "labels.json".toList) } := by
  have hne' := toList_ne_nil u hne
  unfold get_user_paths
  rw [pyJoinL_data_slashfree u.toList hs]
  dsimp only
  rw [pyJoinL_base_file _ _ hne' hs (by decide),
    pyJoinL_base_file _ _ hne' hs (by decide),
    pyJoinL_base_file _ _ hne' hs (by decide)]

theorem append_cons_slashfree_inj (s : List Char) :
    ∀ u1 u2 : List Char, '/' ∉ u1 → '/' ∉ u2 →
      u1 ++ '/' :: s = u2 ++ '/' :: s → u1 = u2 := by
  intro u1
  induction u1 with
  | nil =>
      intro u2 h1 h2 h
      cases u2 with
      | nil => rfl
      | cons c t =>
          simp only [List.nil_append, List.cons_append, List.cons.injEq] at h
          exact absurd (h.1 ▸ List.mem_cons_self c t) h2
  | cons c1 t1 ih =>
      intro u2 h1 h2 h
      cases u2 with
      | nil =>
          simp only [List.cons_append, List.nil_append, List.cons.injEq] at h
          exact absurd (h.1 ▸ List.mem_cons_self c1 t1) h1
      | cons c2 t2 =>
          simp only [List.cons_append, List.cons.injEq] at h
          rw [List.mem_cons, not_or] at h1 h2
          rw [h.1, ih t2 h1.2 h2.2 h.2]

theorem user_path_inj (sfx : List Char) (u1 u2 : String)
    (hs1 : '/' ∉ u1.toList) (hs2 : '/' ∉ u2.toList)
    (h : "data".toList ++ '/' :: (u1.toList ++ '/' :: sfx)
        = "data".toList ++ '/' :: (u2.toList ++ '/' :: sfx)) : u1 = u2 := by
  have h' := List.append_cancel_left h
  injection h' with _ h''
  exact String.ext (append_cons_slashfree_inj sfx _ _ hs1 hs2 h'')

theorem applyOp_frame (u1 u2 : String) (hne : u1 ≠ u2) (h1 : u1 ≠ "")
    (h2 : u2 ≠ "") (hs1 : '/' ∉ u1.toList) (hs2 : '/' ∉ u2.toList)
    (w : World) (op : Op) :
    (applyOp u2 w op).docsFS (get_user_paths u1).docs
        = w.docsFS (get_user_paths u1).docs ∧
      (applyOp u2 w op).annsFS (get_user_paths u1).anns
        = w.annsFS (get_user_paths u1).anns ∧
      (applyOp u2 w op).labelsFS (get_user_paths u1).labels
        = w.labelsFS (get_user_paths u1).labels := by
  have hd : (get_user_paths u1).docs ≠ (get_user_paths u2).docs := by
    rw [get_user_paths_slashfree u1 h1 hs1, get_user_paths_slashfree u2 h2 hs2]
    exact fun h => hne (user_path_inj _ u1 u2 hs1 hs2 h)
  have ha : (get_user_paths u1).anns ≠ (get_user_paths u2).anns := by
    rw [get_user_paths_slashfree u1 h1 hs1, get_user_paths_slashfree u2 h2 hs2]
    exact fun h => hne (user_path_inj _ u1 u2 hs1 hs2 h)
  have hl : (get_user_paths u1).labels ≠ (get_user_paths u2).labels := by
    rw [get_user_paths_slashfree u1 h1 hs1, get_user_paths_slashfree u2 h2 hs2]
    exact fun h => hne (user_path_inj _ u1 u2 hs1 hs2 h)
  cases op with
  | upload f c => exact ⟨by simp [applyOp, updateMap, hd], rfl, rfl⟩
  | saveAnn d c => exact ⟨rfl, by simp [applyOp, updateMap, ha], rfl⟩
  | delAnn d i => exact ⟨rfl, by simp [applyOp, updateMap, ha], rfl⟩
  | setLabel n c => exact ⟨rfl, rfl, by simp [applyOp, updateMap, hl]⟩
  | delLabel n =>
      refine ⟨?_, ?_, ?_⟩ <;>
        · simp only [applyOp]
          by_cases hn : w.labelsFS (get_user_paths u2).labels n = none <;>
            simp [hn, updateMap, hd, ha, hl]

theorem foldl_applyOp_frame (u1 u2 : String) (hne : u1 ≠ u2) (h1 : u1 ≠ "")
    (h2 : u2 ≠ "") (hs1 : '/' ∉ u1.toList) (hs2 : '/' ∉ u2.toList)
    (ops : List Op) :
    ∀ w : World,
      (ops.foldl (applyOp u2) w).docsFS (get_user_paths u1).docs
          = w.docsFS (get_user_paths u1).docs ∧
        (ops.foldl (applyOp u2) w).annsFS (get_user_paths u1).anns
          = w.annsFS (get_user_paths u1).anns ∧
        (ops.foldl (applyOp u2) w).labelsFS (get_user_paths u1).labels
          = w.labelsFS (get_user_paths u1).labels := by
  induction ops with
  | nil => exact fun w => ⟨rfl, rfl, rfl⟩
  | cons op rest ih =>
      intro w
      have hstep := applyOp_frame u1 u2 hne h1 h2 hs1 hs2 w op
      have hrest := ih (applyOp u2 w op)
      exact ⟨hrest.1.trans hstep.1, hrest.2.1.trans hstep.2.1,
        hrest.2.2.trans hstep.2.2⟩

/-- C4 counterexample: `os.path.join`-based namespaces are not disjoint for
all distinct usernames.  The distinct usernames `"a"` and `"a/"` (both
accepted by registration: `strip()` removes neither slash) derive the very
same store paths, and an annotation saved by `"a/"` is observed by `"a"`. -/
theorem c4_counterexample :
    ("a" : String) ≠ "a/" ∧
      get_user_paths "a" = get_user_paths "a/" ∧
      get_annots "a" "d" (applyOp "a/" emptyWorld (.saveAnn "d" ⟨0, 1, "t", "L", none⟩))
        = [⟨0, 1, "t", "L", none⟩] ∧
      get_annots "a" "d" emptyWorld = [] := by
  exact ⟨by decide, by decide, by decide, by decide⟩

/-- C4 (amended): for distinct, nonempty, slash-free usernames the derived
namespaces are disjoint — no sequence of document/annotation/label
operations performed as `u2` mutates any of `u1`'s three store files or
changes what `u1` observes through the read endpoints, even for identical
doc_ids. -/
theorem c4_namespace_isolation (u1 u2 : String) (hne : u1 ≠ u2) (h1 : u1 ≠ "")
    (h2 : u2 ≠ "") (hs1 : '/' ∉ u1.toList) (hs2 : '/' ∉ u2.toList)
    (ops : List Op) (w : World) :
    (ops.foldl (applyOp u2) w).docsFS (get_user_paths u1).docs
        = w.docsFS (get_user_paths u1).docs ∧
      (ops.foldl (applyOp u2) w).annsFS (get_user_paths u1).anns
        = w.annsFS (get_user_paths u1).anns ∧
      (ops.foldl (applyOp u2) w).labelsFS (get_user_paths u1).labels
        = w.labelsFS (get_user_paths u1).labels ∧
      (∀ d, get_annots u1 d (ops.foldl (applyOp u2) w) = get_annots u1 d w) ∧
      (∀ d, get_doc u1 d (ops.foldl (applyOp u2) w) = get_doc u1 d w) ∧
      get_labels u1 (ops.foldl (applyOp u2) w) = get_labels u1 w := by
  have h := foldl_applyOp_frame u1 u2 hne h1 h2 hs1 hs2 ops w
  refine ⟨h.1, h.2.1, h.2.2, ?_, ?_, ?_⟩
  · intro d; unfold get_annots; rw [h.2.1]
  · intro d; unfold get_doc; rw [h.1]
  · unfold get_labels; rw [h.2.2]

/-- C4 witness: the isolation theorem applied to the concrete users "a" and
"b" and one cross-tenant save on the shared doc_id "d". -/
theorem c4_namespace_isolation_witness :
    get_annots "a" "d"
        ([Op.saveAnn "d" ⟨0, 1, "t", "L", none⟩].foldl (applyOp "b") emptyWorld)
      = get_annots "a" "d" emptyWorld := by
  exact (c4_namespace_isolation "a" "b" (by decide) (by decide) (by decide)
    (by decide) (by decide) [Op.saveAnn "d" ⟨0, 1, "t", "L", none⟩] emptyWorld).2.2.2.1 "d"

/-- C10: a `save_annot` call for `(user, doc_id)` is frame-preserving — the
documents store and labels store mappings are untouched (the handler never
writes those paths), and in every annotations file every doc_id other than
the saved one keeps its exact list. -/
theorem c10_save_frame (w : World) (u doc_id : String) (c : Ann) :
    (applyOp u w (.saveAnn doc_id c)).docsFS = w.docsFS ∧
      (applyOp u w (.saveAnn doc_id c)).labelsFS = w.labelsFS ∧
      (∀ p d', d' ≠ doc_id →
        (applyOp u w (.saveAnn doc_id c)).annsFS p d' = w.annsFS p d') := by
  refine ⟨rfl, rfl, ?_⟩
  intro p d' hd
  simp only [applyOp, updateMap]
  by_cases hp : p = (get_user_paths u).anns
  · simp [hp, save_annot, updateMap, hd]
  · simp [hp]

/-- C10 witness: the frame theorem applied on a store already holding
annotations for another doc_id "e" of the same user. -/
theorem c10_save_frame_witness :
    let w := applyOp "alice" emptyWorld (.saveAnn "e" ⟨5, 6, "s", "M", none⟩)
    let w' := applyOp "alice" w (.saveAnn "d" ⟨0, 1, "t", "L", none⟩)
    w'.docsFS = w.docsFS ∧ w'.labelsFS = w.labelsFS ∧
      w'.annsFS (get_user_paths "alice").anns "e"
        = w.annsFS (get_user_paths "alice").anns "e" := by
  intro w w'
  have h := c10_save_frame w "alice" "d" ⟨0, 1, "t", "L", none⟩
  exact ⟨h.1, h.2.1, h.2.2 _ "e" (by decide)⟩
